import Mathlib

/-!
Verification development for `cube2/networks/text.py` (NLP-Cube `TextEncoder`).

The batching, case-classification and mask-computation logic of the module is
embedded as pure Lean functions.  Tensors are modelled as (nested) lists of
ids, or as functions `Nat → Nat → Nat → ℚ` for dense float tensors; the
subnetworks imported from other modules (`SelfAttentionNetwork`, `Encoder`,
the embedding tables and the MLP) are not part of this file's source and are
abstracted as opaque deterministic function parameters.  Python `str.lower` /
`str.upper` are modelled by an explicit pair of character maps (`CharOps`);
the concrete instance `asciiOps` models their behaviour on ASCII characters.
Random draws from `random.random()` are modelled by an explicit oracle
`draws : Nat → Nat → ℚ × ℚ` supplying the pair `(p1, p2)` drawn at each
position of the nested loop in `_compute_masks`.
-/

/-- Model of Python's per-character `str.lower` / `str.upper` methods,
as used by `_case_index` and by the vocabulary lookups. -/
structure CharOps where
  lower : Char → Char
  upper : Char → Char

/-- ASCII instance of `CharOps`: models Python's `str.lower` on
characters `A`-`Z` and `str.upper` on `a`-`z`, identity elsewhere. -/
def asciiLower (c : Char) : Char :=
  if 'A' ≤ c ∧ c ≤ 'Z' then Char.ofNat (c.toNat + 32) else c

/-- ASCII uppercasing, companion of `asciiLower`. -/
def asciiUpper (c : Char) : Char :=
  if 'a' ≤ c ∧ c ≤ 'z' then Char.ofNat (c.toNat - 32) else c

/-- The ASCII model of Python's case mappings. -/
def asciiOps : CharOps := ⟨asciiLower, asciiUpper⟩

/-- Python `word.lower()` modelled as the per-character map. -/
def strLower (ops : CharOps) (w : String) : String :=
  String.mk (w.toList.map ops.lower)

/-- Model of the external `Encodings` object: `word2int` and `char2int`
are the dictionaries (total functions returning `none` for absent keys;
`char2int`'s ordinary keys are single characters).  The reserved keys
`<UNK>` and `<PAD>` are multi-character strings, hence disjoint from the
single-character keys; their ids — guaranteed present by the constructor
contract — are carried as the four explicit fields
(`wordUNK = word2int['<UNK>']`, `wordPAD = word2int['<PAD>']`,
`charUNK = char2int['<UNK>']`, `charPAD = char2int['<PAD>']`). -/
structure Encodings where
  word2int : String → Option Nat
  char2int : Char → Option Nat
  wordUNK : Nat
  wordPAD : Nat
  charUNK : Nat
  charPAD : Nat

/-- An input entry: carries (at least) a literal word string. -/
structure Entry where
  word : String
deriving DecidableEq

/-- `TextEncoder._case_index(char)` (text.py lines 91-98): 3 when
`char.lower() == char.upper()`, else 2 when `char.upper() != char`,
else 1. -/
def _case_index (ops : CharOps) (c : Char) : Nat :=
  if ops.lower c = ops.upper c then 3
  else if ops.upper c ≠ c then 2
  else 1

/-- Word-id lookup of `_create_batches` (text.py lines 123-126):
`word2int[entry.word.lower()]` when the lowercased word is a key,
else `word2int['<UNK>']`. -/
def wordId (enc : Encodings) (ops : CharOps) (w : String) : Nat :=
  match enc.word2int (strLower ops w) with
  | some i => i
  | none => enc.wordUNK

/-- Character-id lookup of `_create_batches` (text.py lines 128-131):
`char2int[char.lower()]` when the lowercased character is a key, else
`char2int['<UNK>']`. -/
def charId (enc : Encodings) (ops : CharOps) (c : Char) : Nat :=
  match enc.char2int (ops.lower c) with
  | some i => i
  | none => enc.charUNK

/-- Inner loop of `_create_batches` over the characters of a word
(text.py lines 127-132): builds `char_int` and `case_int` by appending,
for each character of the original (non-lowercased) word, the character
id of its lowercased form and the case index of the original form. -/
def charCaseInts (enc : Encodings) (ops : CharOps) (w : String) :
    List Nat × List Nat :=
  w.toList.foldl
    (fun acc c => (acc.1 ++ [charId enc ops c], acc.2 ++ [_case_index ops c]))
    ([], [])

/-- Padding loop of `_create_batches` (text.py lines 133-135): appends
`char2int['<PAD>']` to `char_int` and `0` to `case_int`,
`max_word_size - len(entry.word)` times. -/
def padCharCase (enc : Encodings) (mws : Nat) (w : String)
    (p : List Nat × List Nat) : List Nat × List Nat :=
  (List.range (mws - w.length)).foldl
    (fun acc _ => (acc.1 ++ [enc.charPAD], acc.2 ++ [0]))
    p

/-- The finished `(char_int, case_int)` rows appended to
`char_batch` / `case_batch` for one entry (text.py lines 120-137). -/
def wordRows (enc : Encodings) (ops : CharOps) (mws : Nat) (w : String) :
    List Nat × List Nat :=
  padCharCase enc mws w (charCaseInts enc ops w)

/-- `max_sent_size` computed by the first loop of `_create_batches`
(text.py lines 110-112). -/
def maxSentSize (x : List (List Entry)) : Nat :=
  x.foldl (fun m s => max m s.length) 0

/-- `max_word_size` computed by the first loop of `_create_batches`
(text.py lines 113-115). -/
def maxWordSize (x : List (List Entry)) : Nat :=
  x.foldl (fun m s => s.foldl (fun m2 e => max m2 e.word.length) m) 0

/-- The `sent_int` row appended to `word_batch` for one sentence
(text.py lines 118-126 and 139-140): looked-up word ids, then
`word2int['<PAD>']` repeated `max_sent_size - len(sent)` times. -/
def sentWordIds (enc : Encodings) (ops : CharOps) (mss : Nat)
    (sent : List Entry) : List Nat :=
  sent.map (fun e => wordId enc ops e.word) ++
    List.replicate (mss - sent.length) enc.wordPAD

/-- The rows one sentence contributes to `char_batch`: one `char_int`
row per entry, then `max_sent_size - len(sent)` all-zero rows of width
`max_word_size` (text.py lines 136, 139-141). -/
def sentCharRows (enc : Encodings) (ops : CharOps) (mws mss : Nat)
    (sent : List Entry) : List (List Nat) :=
  sent.map (fun e => (wordRows enc ops mws e.word).1) ++
    List.replicate (mss - sent.length) (List.replicate mws 0)

/-- The rows one sentence contributes to `case_batch`: one `case_int`
row per entry, then `max_sent_size - len(sent)` all-zero rows of width
`max_word_size` (text.py lines 137, 139-142). -/
def sentCaseRows (enc : Encodings) (ops : CharOps) (mws mss : Nat)
    (sent : List Entry) : List (List Nat) :=
  sent.map (fun e => (wordRows enc ops mws e.word).2) ++
    List.replicate (mss - sent.length) (List.replicate mws 0)

/-- The three integer batches built by `TextEncoder._create_batches`
(text.py lines 103-151), before the embedding tables and the character
projection are applied: `char_batch`, `case_batch` (one row per token
slot, across all sentences in order) and `word_batch` (one row per
sentence). -/
structure Batches where
  charB : List (List Nat)
  caseB : List (List Nat)
  wordB : List (List Nat)

/-- `TextEncoder._create_batches` (text.py lines 103-151), integer part:
computes the global `max_sent_size` / `max_word_size`, then assembles the
padded per-token character and case rows and the per-sentence word-id
rows, in the order of the source's loops. -/
def _create_batches (enc : Encodings) (ops : CharOps)
    (x : List (List Entry)) : Batches :=
  let mss := maxSentSize x
  let mws := maxWordSize x
  { charB := (x.map (sentCharRows enc ops mws mss)).flatten
    caseB := (x.map (sentCaseRows enc ops mws mss)).flatten
    wordB := x.map (sentWordIds enc ops mss) }

/-- Body of the innermost conditional of `_compute_masks`
(text.py lines 71-84): given the dropout probability and the two uniform
draws `p1`, `p2`, produce the pair `(mm1, mm2)` of mask values (char
mask, word mask).  Python `p1 >= prob` is `prob ≤ p1`. -/
def maskPair (prob p1 p2 : ℚ) : ℚ × ℚ :=
  if prob ≤ p1 ∧ p2 < prob then (2, 0)
  else if p1 < prob ∧ prob ≤ p2 then (0, 2)
  else if p1 < prob ∧ p2 < prob then (0, 0)
  else (1, 1)

/-- `TextEncoder._compute_masks` (text.py lines 65-89): fills the two
`size[:-1]`-shaped matrices `m1` (character mask) and `m2` (word mask)
position by position from the random draws; the draw oracle supplies
the pair `(p1, p2)` drawn at loop position `(ii, jj)`. -/
def _compute_masks (rows cols : Nat) (prob : ℚ)
    (draws : Nat → Nat → ℚ × ℚ) : List (List ℚ) × List (List ℚ) :=
  ((List.range rows).map fun i =>
      (List.range cols).map fun j =>
        (maskPair prob (draws i j).1 (draws i j).2).1,
   (List.range rows).map fun i =>
      (List.range cols).map fun j =>
        (maskPair prob (draws i j).1 (draws i j).2).2)

/-- The learned subnetworks used by `forward` whose code lives outside
this file (`self.character_network` composed with `char_emb`/`case_emb`/
`char_proj` and the `.view`, `self.word_emb`, `self.encoder` with its
permutes, `self.mlp`): abstracted as deterministic functions of the
integer batches, as they are at inference time (their dropout layers
are the identity outside training). Dense tensors indexed
`[batch, position, feature]` are functions `Nat → Nat → Nat → ℚ`. -/
structure Nets where
  tanh : ℚ → ℚ
  charNetView : List (List Nat) → List (List Nat) → Nat → Nat → Nat → ℚ
  wordEmb : List (List Nat) → Nat → Nat → Nat → ℚ
  encoder : (Nat → Nat → Nat → ℚ) → Nat → Nat → Nat → ℚ
  mlp : (Nat → Nat → Nat → ℚ) → Nat → Nat → Nat → ℚ

/-- `TextEncoder.forward` (text.py lines 51-63): builds the batches,
runs the character network and the word embedding, and fuses them —
masked and rescaled through `_compute_masks` when `self.training`,
plain sum otherwise — then applies `tanh`, the sequence encoder and the
output MLP.  The `conditioning` argument appears in the signature and is
never read by the body. -/
def forward (enc : Encodings) (ops : CharOps) (nets : Nets)
    (training : Bool) (prob : ℚ) (draws : Nat → Nat → ℚ × ℚ)
    (x : List (List Entry)) (conditioning : Option (Nat → ℚ)) :
    Nat → Nat → Nat → ℚ :=
  let b := _create_batches enc ops x
  let charE := nets.charNetView b.charB b.caseB
  let wordE := nets.wordEmb b.wordB
  let fused : Nat → Nat → Nat → ℚ :=
    if training then
      let masks := _compute_masks x.length (maxSentSize x) prob draws
      fun i t f =>
        nets.tanh (((masks.1.getD i []).getD t 0) * charE i t f +
          ((masks.2.getD i []).getD t 0) * wordE i t f)
    else
      fun i t f => nets.tanh (charE i t f + wordE i t f)
  nets.mlp (nets.encoder fused)

/-- Concrete vocabulary of the spec's worked example: `cat → 5`,
`sat → 6`, `<UNK> → 1`, `<PAD> → 0`; characters `c`, `a`, `t`, `s`
present in `char2int`. -/
def encEx : Encodings where
  word2int := fun w =>
    if w = "cat" then some 5 else if w = "sat" then some 6
    else if w = "<UNK>" then some 1 else if w = "<PAD>" then some 0
    else none
  char2int := fun c =>
    if c = 'c' then some 2 else if c = 'a' then some 3
    else if c = 't' then some 4 else if c = 's' then some 5
    else none
  wordUNK := 1
  wordPAD := 0
  charUNK := 1
  charPAD := 0

/-- Concrete vocabulary in which the character `<PAD>` id is 7, not 0:
used to exhibit the character-channel padding behaviour. -/
def encC1 : Encodings where
  word2int := fun w =>
    if w = "<UNK>" then some 1 else if w = "<PAD>" then some 0
    else none
  char2int := fun c =>
    if c = 'a' then some 2 else if c = 'b' then some 3
    else if c = 'c' then some 4 else none
  wordUNK := 1
  wordPAD := 0
  charUNK := 6
  charPAD := 7

example : _case_index asciiOps 'C' = 1 := by decide
example : _case_index asciiOps 'a' = 2 := by decide
example : _case_index asciiOps '7' = 3 := by decide

/-! ### Helper lemmas -/

/-- Running maximum: the initial value bounds the fold from below. -/
lemma init_le_foldl_max {α : Type} (f : α → Nat) (l : List α) (m : Nat) :
    m ≤ l.foldl (fun a b => max a (f b)) m := by
  induction l generalizing m with
  | nil => exact Nat.le_refl m
  | cons h t ih => exact Nat.le_trans (Nat.le_max_left m (f h)) (ih (max m (f h)))

/-- Running maximum: every element bounds the fold from below. -/
lemma mem_le_foldl_max {α : Type} (f : α → Nat) :
    ∀ (l : List α) (m : Nat) (a : α), a ∈ l →
      f a ≤ l.foldl (fun a b => max a (f b)) m
  | h :: t, m, a, ha => by
    rcases List.mem_cons.1 ha with rfl | ha2
    · exact Nat.le_trans (Nat.le_max_right m (f a)) (init_le_foldl_max f t _)
    · exact mem_le_foldl_max f t (max m (f h)) a ha2

/-- Running maximum: the fold is the initial value or is attained by an
element. -/
lemma foldl_max_attain {α : Type} (f : α → Nat) (l : List α) (m : Nat) :
    l.foldl (fun a b => max a (f b)) m = m ∨
      ∃ a ∈ l, l.foldl (fun a b => max a (f b)) m = f a := by
  induction l generalizing m with
  | nil => exact Or.inl rfl
  | cons h t ih =>
    rcases ih (max m (f h)) with h1 | ⟨a, ha, h2⟩
    · rcases Nat.le_total m (f h) with hle | hle
      · exact Or.inr ⟨h, List.mem_cons_self h t, by rw [List.foldl_cons, h1, Nat.max_eq_right hle]⟩
      · exact Or.inl (by rw [List.foldl_cons, h1, Nat.max_eq_left hle])
    · exact Or.inr ⟨a, List.mem_cons_of_mem h ha, h2⟩

/-- The nested fold computing `max_word_size` equals the plain fold over
the concatenation of the sentences. -/
lemma maxWordSize_eq_flatten (x : List (List Entry)) :
    maxWordSize x = x.flatten.foldl (fun m e => max m e.word.length) 0 := by
  show x.foldl (fun m s => s.foldl (fun m2 e => max m2 e.word.length) m) 0 = _
  generalize (0 : Nat) = m
  induction x generalizing m with
  | nil => rfl
  | cons s t ih => simp [List.foldl_append, ih]

/-- Every sentence of the batch is no longer than `max_sent_size`. -/
lemma sent_le_maxSentSize (x : List (List Entry)) (s : List Entry)
    (hs : s ∈ x) : s.length ≤ maxSentSize x :=
  mem_le_foldl_max List.length x 0 s hs

/-- Every word in the batch is no longer than `max_word_size`. -/
lemma word_le_maxWordSize (x : List (List Entry)) (s : List Entry)
    (hs : s ∈ x) (e : Entry) (he : e ∈ s) : e.word.length ≤ maxWordSize x := by
  rw [maxWordSize_eq_flatten]
  exact mem_le_foldl_max (fun e => e.word.length) x.flatten 0 e
    (List.mem_flatten.2 ⟨s, hs, he⟩)

/-- `max_sent_size` of a nonempty batch is the length of one of its
sentences. -/
lemma maxSentSize_attain (x : List (List Entry)) (hx : x ≠ []) :
    ∃ s ∈ x, maxSentSize x = s.length := by
  rcases foldl_max_attain List.length x 0 with h | h
  · rcases List.exists_mem_of_ne_nil x hx with ⟨s, hs⟩
    refine ⟨s, hs, Nat.le_antisymm ?_ ?_⟩
    · rw [maxSentSize] at *; omega
    · exact sent_le_maxSentSize x s hs
  · exact h

/-- Closed form of the inner character loop: the accumulated `char_int`
and `case_int` lists are the two maps over the word's characters. -/
lemma charCaseInts_eq (enc : Encodings) (ops : CharOps) (w : String) :
    charCaseInts enc ops w =
      (w.toList.map (charId enc ops), w.toList.map (_case_index ops)) := by
  show w.toList.foldl _ ([], []) = _
  have key : ∀ (l : List Char) (acc : List Nat × List Nat),
      l.foldl (fun acc c => (acc.1 ++ [charId enc ops c],
                             acc.2 ++ [_case_index ops c])) acc =
        (acc.1 ++ l.map (charId enc ops), acc.2 ++ l.map (_case_index ops)) := by
    intro l
    induction l with
    | nil => intro acc; simp
    | cons c t ih => intro acc; simp [ih]
  simpa using key w.toList ([], [])

/-- Closed form of the padding loop: it appends `n` copies of
`char2int['<PAD>']` to the first list and `n` zeros to the second. -/
lemma padCharCase_eq (enc : Encodings) (mws : Nat) (w : String)
    (p : List Nat × List Nat) :
    padCharCase enc mws w p =
      (p.1 ++ List.replicate (mws - w.length) enc.charPAD,
       p.2 ++ List.replicate (mws - w.length) 0) := by
  show (List.range (mws - w.length)).foldl _ p = _
  generalize mws - w.length = n
  induction n generalizing p with
  | zero => simp
  | succ k ih =>
    rw [List.range_succ, List.foldl_append, ih]
    simp [List.replicate_succ']

/-- Closed form of the `(char_int, case_int)` rows of one entry. -/
lemma wordRows_eq (enc : Encodings) (ops : CharOps) (mws : Nat) (w : String) :
    wordRows enc ops mws w =
      (w.toList.map (charId enc ops) ++
         List.replicate (mws - w.length) enc.charPAD,
       w.toList.map (_case_index ops) ++
         List.replicate (mws - w.length) 0) := by
  rw [wordRows, charCaseInts_eq, padCharCase_eq]

/-- A word's character list has the word's length. -/
lemma toList_length (w : String) : w.toList.length = w.length := rfl

/-- A padded word-id row has length `max_sent_size`. -/
lemma sentWordIds_length (enc : Encodings) (ops : CharOps) (mss : Nat)
    (sent : List Entry) (h : sent.length ≤ mss) :
    (sentWordIds enc ops mss sent).length = mss := by
  simp [sentWordIds]
  omega

/-- A padded `char_int` row has length `max_word_size`. -/
lemma wordRows_fst_length (enc : Encodings) (ops : CharOps) (mws : Nat)
    (w : String) (h : w.length ≤ mws) :
    (wordRows enc ops mws w).1.length = mws := by
  rw [wordRows_eq]
  simp [toList_length]
  omega

/-- A padded `case_int` row has length `max_word_size`. -/
lemma wordRows_snd_length (enc : Encodings) (ops : CharOps) (mws : Nat)
    (w : String) (h : w.length ≤ mws) :
    (wordRows enc ops mws w).2.length = mws := by
  rw [wordRows_eq]
  simp [toList_length]
  omega

/-- One sentence contributes exactly `max_sent_size` rows to
`char_batch`. -/
lemma sentCharRows_length (enc : Encodings) (ops : CharOps) (mws mss : Nat)
    (sent : List Entry) (h : sent.length ≤ mss) :
    (sentCharRows enc ops mws mss sent).length = mss := by
  simp [sentCharRows]
  omega

/-- One sentence contributes exactly `max_sent_size` rows to
`case_batch`. -/
lemma sentCaseRows_length (enc : Encodings) (ops : CharOps) (mws mss : Nat)
    (sent : List Entry) (h : sent.length ≤ mss) :
    (sentCaseRows enc ops mws mss sent).length = mss := by
  simp [sentCaseRows]
  omega

/-- Every row a sentence contributes to `char_batch` has width
`max_word_size`. -/
lemma mem_sentCharRows_length (enc : Encodings) (ops : CharOps)
    (mws mss : Nat) (sent : List Entry)
    (hw : ∀ e ∈ sent, e.word.length ≤ mws)
    (row : List Nat) (hr : row ∈ sentCharRows enc ops mws mss sent) :
    row.length = mws := by
  rcases List.mem_append.1 hr with h1 | h2
  · rcases List.mem_map.1 h1 with ⟨e, he, rfl⟩
    exact wordRows_fst_length enc ops mws e.word (hw e he)
  · rw [List.eq_of_mem_replicate h2]
    exact List.length_replicate mws 0

/-- Every row a sentence contributes to `case_batch` has width
`max_word_size`. -/
lemma mem_sentCaseRows_length (enc : Encodings) (ops : CharOps)
    (mws mss : Nat) (sent : List Entry)
    (hw : ∀ e ∈ sent, e.word.length ≤ mws)
    (row : List Nat) (hr : row ∈ sentCaseRows enc ops mws mss sent) :
    row.length = mws := by
  rcases List.mem_append.1 hr with h1 | h2
  · rcases List.mem_map.1 h1 with ⟨e, he, rfl⟩
    exact wordRows_snd_length enc ops mws e.word (hw e he)
  · rw [List.eq_of_mem_replicate h2]
    exact List.length_replicate mws 0

/-- A list of `n` lists, each of length `m`, flattens to length
`n * m`. -/
lemma flatten_length_const {α : Type} (L : List (List α)) (m : Nat)
    (h : ∀ l ∈ L, l.length = m) : L.flatten.length = L.length * m := by
  induction L with
  | nil => simp
  | cons a t ih =>
    simp only [List.flatten_cons, List.length_append, List.length_cons]
    rw [h a (List.mem_cons_self a t),
      ih (fun l hl => h l (List.mem_cons_of_mem a hl))]
    ring

/-- The case classifier never returns 0. -/
lemma case_index_pos (ops : CharOps) (c : Char) : 1 ≤ _case_index ops c := by
  unfold _case_index
  split_ifs <;> omega

/-- The case classifier always returns less than 4. -/
lemma case_index_lt (ops : CharOps) (c : Char) : _case_index ops c < 4 := by
  unfold _case_index
  split_ifs <;> omega

example : wordId encEx asciiOps "Cat" = 5 := by decide
example : (_create_batches encEx asciiOps [[⟨"Cat"⟩, ⟨"sat"⟩]]).wordB = [[5, 6]] := by decide
example : (_create_batches encEx asciiOps [[⟨"Cat"⟩, ⟨"sat"⟩]]).caseB = [[1, 2, 2], [2, 2, 2]] := by decide
example : (_create_batches encC1 asciiOps [[⟨"ab"⟩, ⟨"c"⟩]]).charB = [[2, 3], [4, 7]] := by decide

/-! ### Claim theorems -/

/-- C3: `_case_index` is a pure total function on single characters:
it returns 3 when the character's lowercase form equals its uppercase
form, else 2 when the character differs from its uppercased form, else
1; its value is always one of 1, 2, 3; under the ASCII model of
Python's case maps, non-letter characters (digits, punctuation) always
yield 3, lowercase letters yield 2 and uppercase letters yield 1.
Determinism is inherent: the embedding is a function of the character
alone. -/
theorem C3_case_index_total (ops : CharOps) (c : Char) :
    (ops.lower c = ops.upper c → _case_index ops c = 3) ∧
    (ops.lower c ≠ ops.upper c → ops.upper c ≠ c → _case_index ops c = 2) ∧
    (ops.lower c ≠ ops.upper c → ops.upper c = c → _case_index ops c = 1) ∧
    (_case_index ops c = 1 ∨ _case_index ops c = 2 ∨ _case_index ops c = 3) ∧
    (∀ n : Nat, n < 128 → ¬(65 ≤ n ∧ n ≤ 90) → ¬(97 ≤ n ∧ n ≤ 122) →
      _case_index asciiOps (Char.ofNat n) = 3) ∧
    (∀ n : Nat, n < 123 → 97 ≤ n → _case_index asciiOps (Char.ofNat n) = 2) ∧
    (∀ n : Nat, n < 91 → 65 ≤ n → _case_index asciiOps (Char.ofNat n) = 1) := by
  refine ⟨?_, ?_, ?_, ?_, by decide, by decide, by decide⟩
  · intro h; simp [_case_index, h]
  · intro h1 h2; simp [_case_index, h1, h2]
  · intro h1 h2
    unfold _case_index
    rw [if_neg h1, if_neg (by simp [h2])]
  · unfold _case_index; split_ifs <;> simp

/-- Witness for C3: the exclamation mark (code point 33) is a
non-letter and is classified 3. -/
theorem C3_case_index_total_witness :
    (33 < 128 ∧ ¬(65 ≤ 33 ∧ 33 ≤ 90) ∧ ¬(97 ≤ 33 ∧ 33 ≤ 122)) ∧
      _case_index asciiOps (Char.ofNat 33) = 3 :=
  ⟨by decide, (C3_case_index_total asciiOps 'x').2.2.2.2.1 33 (by decide)
    (by decide) (by decide)⟩

/-- C4: vocabulary lookups are on the lowercased word / character and
fall back to the respective `<UNK>` id whenever the lowercased form is
absent; the case category comes from the original (non-lowercased)
character; being total Lean functions, the lookups never raise. -/
theorem C4_unk_fallback (enc : Encodings) (ops : CharOps) (w : String)
    (c : Char) :
    (enc.word2int (strLower ops w) = none → wordId enc ops w = enc.wordUNK) ∧
    (∀ i, enc.word2int (strLower ops w) = some i → wordId enc ops w = i) ∧
    (enc.char2int (ops.lower c) = none → charId enc ops c = enc.charUNK) ∧
    (∀ i, enc.char2int (ops.lower c) = some i → charId enc ops c = i) ∧
    (charCaseInts enc ops w).2 = w.toList.map (_case_index ops) := by
  refine ⟨?_, ?_, ?_, ?_, by rw [charCaseInts_eq]⟩
  · intro h; simp [wordId, h]
  · intro i h; simp [wordId, h]
  · intro h; simp [charId, h]
  · intro i h; simp [charId, h]

/-- Witness for C4: `dog` is absent from the example vocabulary, and its
word id is the `<UNK>` id. -/
theorem C4_unk_fallback_witness :
    encEx.word2int (strLower asciiOps "dog") = none ∧
      wordId encEx asciiOps "dog" = encEx.wordUNK :=
  ⟨by decide, (C4_unk_fallback encEx asciiOps "dog" 'q').1 (by decide)⟩

/-- C5: for every list of sentences, `_create_batches` produces a
word-id matrix of shape `[number of sentences, max_sent_size]` and
character-id / case-id matrices sharing shape
`[number of sentences * max_sent_size, max_word_size]`, where
`max_sent_size` is the length of the longest sentence of the batch and
`max_word_size` the length of the longest word across all sentences (a
single global maximum). -/
theorem C5_batch_shapes (enc : Encodings) (ops : CharOps)
    (x : List (List Entry)) :
    (_create_batches enc ops x).wordB.length = x.length ∧
    (∀ row ∈ (_create_batches enc ops x).wordB,
      row.length = maxSentSize x) ∧
    (_create_batches enc ops x).charB.length = x.length * maxSentSize x ∧
    (_create_batches enc ops x).caseB.length = x.length * maxSentSize x ∧
    (∀ row ∈ (_create_batches enc ops x).charB,
      row.length = maxWordSize x) ∧
    (∀ row ∈ (_create_batches enc ops x).caseB,
      row.length = maxWordSize x) ∧
    (∀ s ∈ x, s.length ≤ maxSentSize x) ∧
    (x ≠ [] → ∃ s ∈ x, maxSentSize x = s.length) ∧
    (∀ s ∈ x, ∀ e ∈ s, e.word.length ≤ maxWordSize x) := by
  refine ⟨?_, ?_, ?_, ?_, ?_, ?_, sent_le_maxSentSize x,
    maxSentSize_attain x, word_le_maxWordSize x⟩
  · simp [_create_batches]
  · intro row hr
    simp only [_create_batches] at hr
    rcases List.mem_map.1 hr with ⟨s, hs, rfl⟩
    exact sentWordIds_length enc ops _ s (sent_le_maxSentSize x s hs)
  · simp only [_create_batches]
    rw [flatten_length_const _ (maxSentSize x), List.length_map]
    intro l hl
    rcases List.mem_map.1 hl with ⟨s, hs, rfl⟩
    exact sentCharRows_length enc ops _ _ s (sent_le_maxSentSize x s hs)
  · simp only [_create_batches]
    rw [flatten_length_const _ (maxSentSize x), List.length_map]
    intro l hl
    rcases List.mem_map.1 hl with ⟨s, hs, rfl⟩
    exact sentCaseRows_length enc ops _ _ s (sent_le_maxSentSize x s hs)
  · intro row hr
    simp only [_create_batches] at hr
    rcases List.mem_flatten.1 hr with ⟨l, hl, hrl⟩
    rcases List.mem_map.1 hl with ⟨s, hs, rfl⟩
    exact mem_sentCharRows_length enc ops _ _ s
      (fun e he => word_le_maxWordSize x s hs e he) row hrl
  · intro row hr
    simp only [_create_batches] at hr
    rcases List.mem_flatten.1 hr with ⟨l, hl, hrl⟩
    rcases List.mem_map.1 hl with ⟨s, hs, rfl⟩
    exact mem_sentCaseRows_length enc ops _ _ s
      (fun e he => word_le_maxWordSize x s hs e he) row hrl

/-- Witness for C5: on the two-sentence batch `[[ab, c], [de]]` the
word matrix has one row per sentence of width 2, and the character
matrix has 4 rows of width 2. -/
theorem C5_batch_shapes_witness :
    ([⟨"ab"⟩, ⟨"c"⟩] : List Entry) ∈ [[⟨"ab"⟩, ⟨"c"⟩], [(⟨"de"⟩ : Entry)]] ∧
      ([⟨"ab"⟩, ⟨"c"⟩] : List Entry).length ≤
        maxSentSize [[⟨"ab"⟩, ⟨"c"⟩], [(⟨"de"⟩ : Entry)]] ∧
      (_create_batches encC1 asciiOps
        [[⟨"ab"⟩, ⟨"c"⟩], [(⟨"de"⟩ : Entry)]]).charB.length =
        2 * maxSentSize [[⟨"ab"⟩, ⟨"c"⟩], [(⟨"de"⟩ : Entry)]] := by
  have h := C5_batch_shapes encC1 asciiOps [[⟨"ab"⟩, ⟨"c"⟩], [(⟨"de"⟩ : Entry)]]
  exact ⟨by decide, h.2.2.2.2.2.2.1 _ (by decide), h.2.2.1⟩

/-- C10 (implicit): `_case_index` never returns 0 (its range lies in
{1,2,3}), every value in the case batch is a valid index into the
4-entry case embedding table, and within a word's case row the value 0
appears exactly at the padding positions (index at or beyond the word's
length). -/
theorem C10_case_id_range (enc : Encodings) (ops : CharOps)
    (x : List (List Entry)) :
    (∀ c, _case_index ops c ≠ 0 ∧ _case_index ops c < 4) ∧
    (∀ row ∈ (_create_batches enc ops x).caseB, ∀ v ∈ row, v < 4) ∧
    (∀ mws (w : String) (j v : Nat),
      ((wordRows enc ops mws w).2)[j]? = some v →
        (v = 0 ↔ w.length ≤ j)) := by
  refine ⟨?_, ?_, ?_⟩
  · intro c
    have h1 := case_index_pos ops c
    have h2 := case_index_lt ops c
    omega
  · intro row hr v hv
    simp only [_create_batches] at hr
    rcases List.mem_flatten.1 hr with ⟨l, hl, hrl⟩
    rcases List.mem_map.1 hl with ⟨s, hs, rfl⟩
    rcases List.mem_append.1 hrl with h1 | h2
    · rcases List.mem_map.1 h1 with ⟨e, he, rfl⟩
      rw [wordRows_eq] at hv
      rcases List.mem_append.1 hv with hv1 | hv2
      · rcases List.mem_map.1 hv1 with ⟨c, hc, rfl⟩
        exact case_index_lt ops c
      · have := List.eq_of_mem_replicate hv2
        omega
    · rw [List.eq_of_mem_replicate h2] at hv
      have := List.eq_of_mem_replicate hv
      omega
  · intro mws w j v hj
    rw [wordRows_eq] at hj
    by_cases hcase : j < w.length
    · have hlen : j < (w.toList.map (_case_index ops)).length := by
        rw [List.length_map, toList_length]
        exact hcase
      rw [List.getElem?_append_left hlen, List.getElem?_map] at hj
      rcases Option.map_eq_some'.1 hj with ⟨c, hc, hv⟩
      have hpos := case_index_pos ops c
      omega
    · have hge : (w.toList.map (_case_index ops)).length ≤ j := by
        rw [List.length_map, toList_length]
        omega
      rw [List.getElem?_append_right hge] at hj
      have hv0 : v ∈ List.replicate (mws - w.length) 0 :=
        List.getElem?_mem hj
      have := List.eq_of_mem_replicate hv0
      omega

/-- Witness for C10: in the case row of the one-letter word `a` padded
to width 2, position 1 holds 0 and is a padding position. -/
theorem C10_case_id_range_witness :
    ((wordRows encEx asciiOps 2 "a").2)[1]? = some 0 ∧
      ((0 : Nat) = 0 ↔ "a".length ≤ 1) :=
  ⟨by decide,
    (C10_case_id_range encEx asciiOps []).2.2 2 "a" 1 0 (by decide)⟩

/-- C1 as stated is false: with a vocabulary assigning the character
`<PAD>` the id 7, the character-channel padding value of a word padded
to `max_word_size` is 7, not 0 — `_create_batches` pads `char_int` with
`char2int['<PAD>']` (text.py line 134). -/
theorem C1_char_padding_counterexample :
    ((_create_batches encC1 asciiOps
        [[⟨"ab"⟩, ⟨"c"⟩]]).charB.getD 1 []).getD 1 0 = encC1.charPAD ∧
    encC1.charPAD = 7 ∧
    ¬((_create_batches encC1 asciiOps
        [[⟨"ab"⟩, ⟨"c"⟩]]).charB.getD 1 []).getD 1 0 = 0 := by
  decide

/-- C1 amended: each word's character-id sequence is padded on the
right to `max_word_size` with `char2int['<PAD>']` while its case-id
sequence is padded with 0; sentence-level padding appends all-zero
character and case rows; word-level sentence padding uses the
vocabulary's `<PAD>` word id.  Hence for a vocabulary in which the
character `<PAD>` is not assigned id 0, the character-channel
word-padding values equal that `<PAD>` id, not 0 (only the case channel
and the sentence-padding rows use the literal 0). -/
theorem C1_padding_ids (enc : Encodings) (ops : CharOps) (mws mss : Nat)
    (w : String) (sent : List Entry) :
    (wordRows enc ops mws w).1 =
      w.toList.map (charId enc ops) ++
        List.replicate (mws - w.length) enc.charPAD ∧
    (wordRows enc ops mws w).2 =
      w.toList.map (_case_index ops) ++
        List.replicate (mws - w.length) 0 ∧
    sentWordIds enc ops mss sent =
      sent.map (fun e => wordId enc ops e.word) ++
        List.replicate (mss - sent.length) enc.wordPAD ∧
    sentCharRows enc ops mws mss sent =
      sent.map (fun e => (wordRows enc ops mws e.word).1) ++
        List.replicate (mss - sent.length) (List.replicate mws 0) ∧
    sentCaseRows enc ops mws mss sent =
      sent.map (fun e => (wordRows enc ops mws e.word).2) ++
        List.replicate (mss - sent.length) (List.replicate mws 0) := by
  refine ⟨?_, ?_, rfl, rfl, rfl⟩ <;> rw [wordRows_eq]

/-- C9: the spec's worked example — on the single-sentence batch
`[["Cat", "sat"]]` with the example vocabulary, the word-id row is
`[5, 6]` (lowercased lookup, no padding) and the case rows are
`[1, 2, 2]` for `Cat` and `[2, 2, 2]` for `sat`. -/
theorem C9_worked_example :
    (_create_batches encEx asciiOps [[⟨"Cat"⟩, ⟨"sat"⟩]]).wordB =
      [[5, 6]] ∧
    (_create_batches encEx asciiOps [[⟨"Cat"⟩, ⟨"sat"⟩]]).caseB =
      [[1, 2, 2], [2, 2, 2]] := by
  decide

/-- C6: the integer part of the batching step is total on the
degenerate inputs — on the empty sentence list all three batches are
empty (sentence-length dimension 0) and on an all-empty-word batch the
rows are well-formed zero-width lists.  (The running code nevertheless
raises on these inputs: `torch.tensor` of an empty list defaults to
float32 and the embedding layers reject non-integer indices.) -/
theorem C6_degenerate_batches :
    (_create_batches encEx asciiOps []).wordB = [] ∧
    (_create_batches encEx asciiOps []).charB = [] ∧
    (_create_batches encEx asciiOps []).caseB = [] ∧
    (_create_batches encEx asciiOps []).wordB.length = 0 ∧
    maxWordSize [[⟨""⟩]] = 0 ∧
    (_create_batches encEx asciiOps [[⟨""⟩]]).charB = [[]] ∧
    (_create_batches encEx asciiOps [[⟨""⟩]]).caseB = [[]] ∧
    (_create_batches encEx asciiOps [[⟨""⟩]]).wordB = [[encEx.wordUNK]] := by
  decide

/-- Indexing a matrix built from `List.range` maps yields the generating
function's value at in-range positions. -/
lemma getD_range_map {α : Type} (f : Nat → α) (n i : Nat) (hi : i < n)
    (d : α) : ((List.range n).map f).getD i d = f i := by
  rw [List.getD_eq_getElem?_getD, List.getElem?_map, List.getElem?_range hi]
  rfl

/-- C2: every mask pair produced by `_compute_masks` is, at every
in-range (row, column) position, exactly `maskPair` of the two draws at
that position; the pair is always one of (2,0), (0,2), (0,0), (1,1);
and it is determined by the draws exactly as the source's conditional
states (`p1 >= prob` is `prob ≤ p1`). -/
theorem C2_mask_pairs (rows cols : Nat) (prob : ℚ)
    (draws : Nat → Nat → ℚ × ℚ) (i j : Nat)
    (hi : i < rows) (hj : j < cols) :
    (((_compute_masks rows cols prob draws).1.getD i []).getD j 0,
     ((_compute_masks rows cols prob draws).2.getD i []).getD j 0) =
      maskPair prob (draws i j).1 (draws i j).2 ∧
    (maskPair prob (draws i j).1 (draws i j).2 = (2, 0) ∨
     maskPair prob (draws i j).1 (draws i j).2 = (0, 2) ∨
     maskPair prob (draws i j).1 (draws i j).2 = (0, 0) ∨
     maskPair prob (draws i j).1 (draws i j).2 = (1, 1)) ∧
    (prob ≤ (draws i j).1 ∧ (draws i j).2 < prob →
      maskPair prob (draws i j).1 (draws i j).2 = (2, 0)) ∧
    ((draws i j).1 < prob ∧ prob ≤ (draws i j).2 →
      maskPair prob (draws i j).1 (draws i j).2 = (0, 2)) ∧
    ((draws i j).1 < prob ∧ (draws i j).2 < prob →
      maskPair prob (draws i j).1 (draws i j).2 = (0, 0)) ∧
    (prob ≤ (draws i j).1 ∧ prob ≤ (draws i j).2 →
      maskPair prob (draws i j).1 (draws i j).2 = (1, 1)) := by
  refine ⟨?_, ?_, ?_, ?_, ?_, ?_⟩
  · show ((((List.range rows).map _).getD i []).getD j 0,
          (((List.range rows).map _).getD i []).getD j 0) = _
    rw [getD_range_map _ rows i hi, getD_range_map _ rows i hi,
      getD_range_map _ cols j hj, getD_range_map _ cols j hj]
  · unfold maskPair
    split_ifs <;> simp
  · rintro ⟨h1, h2⟩
    unfold maskPair
    rw [if_pos ⟨h1, h2⟩]
  · rintro ⟨h1, h2⟩
    unfold maskPair
    rw [if_neg (fun hc => absurd hc.1 (not_le.2 h1)), if_pos ⟨h1, h2⟩]
  · rintro ⟨h1, h2⟩
    unfold maskPair
    rw [if_neg (fun hc => absurd hc.1 (not_le.2 h1)),
      if_neg (fun hc => absurd hc.2 (not_le.2 h2)), if_pos ⟨h1, h2⟩]
  · rintro ⟨h1, h2⟩
    unfold maskPair
    rw [if_neg (fun hc => absurd hc.2 (not_lt.2 h2)),
      if_neg (fun hc => absurd hc.1 (not_lt.2 h1)),
      if_neg (fun hc => absurd hc.1 (not_lt.2 h1))]

/-- Witness for C2: with dropout probability 1/2 and draws
(p1, p2) = (3/4, 1/4) at position (0,0) of a 1 by 1 batch, the
produced mask pair is (2, 0). -/
theorem C2_mask_pairs_witness :
    ((0 < 1) ∧ ((1 : ℚ)/2 ≤ 3/4 ∧ (1 : ℚ)/4 < 1/2)) ∧
      maskPair (1/2) (3/4) (1/4) = (2, 0) :=
  ⟨⟨Nat.zero_lt_one, by norm_num, by norm_num⟩,
    (C2_mask_pairs 1 1 (1/2) (fun _ _ => (3/4, 1/4)) 0 0 Nat.zero_lt_one
      Nat.zero_lt_one).2.2.1 ⟨by norm_num, by norm_num⟩⟩

/-- C7: when the module is not in training mode, `forward` skips the
masking entirely — the fused vector is `tanh` of the unscaled sum of
the character-derived and word-embedding vectors — and the output does
not depend on the random draws or on the dropout probability: two
calls with identical input and identical parameters agree. -/
theorem C7_inference_deterministic (enc : Encodings) (ops : CharOps)
    (nets : Nets) (prob1 prob2 : ℚ)
    (draws1 draws2 : Nat → Nat → ℚ × ℚ) (x : List (List Entry))
    (cond : Option (Nat → ℚ)) :
    forward enc ops nets false prob1 draws1 x cond =
      forward enc ops nets false prob2 draws2 x cond ∧
    forward enc ops nets false prob1 draws1 x cond =
      nets.mlp (nets.encoder (fun i t f =>
        nets.tanh
          (nets.charNetView (_create_batches enc ops x).charB
              (_create_batches enc ops x).caseB i t f +
            nets.wordEmb (_create_batches enc ops x).wordB i t f))) :=
  ⟨rfl, rfl⟩

/-- C8: the optional conditioning argument of `forward` is never read
by the body, so the result is the same function of the input and the
parameters for every pair of conditioning values, in either mode. -/
theorem C8_conditioning_unused (enc : Encodings) (ops : CharOps)
    (nets : Nets) (training : Bool) (prob : ℚ)
    (draws : Nat → Nat → ℚ × ℚ) (x : List (List Entry))
    (c1 c2 : Option (Nat → ℚ)) :
    forward enc ops nets training prob draws x c1 =
      forward enc ops nets training prob draws x c2 :=
  rfl
